/-
  Verification development for the flight-graph engine of the
  "Air Travel Flight Management System" project
  (Classes/FlightManagementSystem.h / FlightManagementSystem.cpp).

  The C++ class owns a table of airports and a directed multigraph of
  flights (one edge per airline serving an ordered pair of airports).
  The repository snapshot contains FlightManagementSystem.{h,cpp} but not
  Graph.h / Graph.cpp / Data.h, so the graph primitives
  (findVertex, shortestPathsBFS, nodesAtDistanceBFS, dfsVisit) are
  modelled from the specification; each such definition carries a
  doc comment beginning `Modelled from the spec:`.  Everything else is a
  direct translation of FlightManagementSystem.cpp.

  Modelling conventions:
  * C++ `double` distances are modelled as exact rationals; the DBL_MAX
    sentinel is modelled by its exact numeric value 2^1024 - 2^971.
  * C++ `std::set` / distinct-count idioms are modelled with `List.dedup`
    (the counts only depend on the underlying set).
  * Functions that print their results are modelled as returning the
    printed numbers.
  * Dereferencing the null pointer returned by `findVertex` for an absent
    code is undefined behaviour in the C++ program; it is modelled by the
    distinguished error value `QueryError.nullDeref`, kept distinct from
    the `NotFound` signalling the specification prescribes.
-/
import Mathlib

deriving instance DecidableEq for Except

/-- A query-result hop: source airport code, target airport code and the
airline codes operating that exact hop (struct `Route`,
FlightManagementSystem.h lines 14-29). -/
structure Route where
  source : String
  target : String
  airlines : List String
deriving DecidableEq

/-- A directed flight edge: destination airport code, operating airline
code, physical distance (spec section 3, "Edge"). -/
structure Edge where
  dest : String
  airline : String
  distance : ℚ
deriving DecidableEq

/-- A graph vertex: its airport code and its outgoing edge list
(spec section 3, "Vertex"/"Edge"; the per-traversal scratch fields are
externalised into the traversal functions below). -/
structure Vertex where
  info : String
  adj : List Edge
deriving DecidableEq

/-- The flight multigraph: the set of vertices, each owning its outgoing
edges (spec section 3, "FlightGraph"). -/
structure Graph where
  vertexSet : List Vertex
deriving DecidableEq

/-- An airport record; only the fields the verified queries read are kept
(name for display, city and country for the reachability counts). -/
structure Airport where
  name : String
  city : String
  country : String
deriving DecidableEq

/-- The system state: the airports table (keyed by airport code) and the
flight graph (class FlightManagementSystem, header lines 67-73; the
airlines table is only read by printing code and is omitted). -/
structure FlightManagementSystem where
  airports : List (String × Airport)
  flights : Graph
deriving DecidableEq

/-- Modelled from the spec: vertex lookup by airport code.  `none` models
the null pointer the C++ graph returns for an absent code ("any lookup by
an absent airport code fails with NotFound", spec section 4.1). -/
def findVertex (g : Graph) (code : String) : Option Vertex :=
  g.vertexSet.find? (fun v => v.info == code)

/-- Modelled from the spec: `outDegree(code)` is the count of outgoing
edges of the vertex (spec section 4.1). -/
def outdegreeOf (v : Vertex) : Nat := v.adj.length

/-- The destination codes of all outgoing edges of the vertex named `u`
(adjacency iteration; empty for an absent code). -/
def succs (g : Graph) (u : String) : List String :=
  match findVertex g u with
  | none => []
  | some v => v.adj.map Edge.dest

/-- One breadth-first layering step: a set of codes together with every
direct successor, deduplicated. -/
def expandReached (g : Graph) (l : List String) : List String :=
  (l ++ l.flatMap (succs g)).dedup

/-- Modelled from the spec: the codes reachable from `src` within at most
`i` hops (the cumulative breadth-first layers; `src` itself is at
distance 0). -/
def reachedIn (g : Graph) (src : String) : Nat → List String
  | 0 => [src]
  | i + 1 => expandReached g (reachedIn g src i)

/-- The least `i < n` such that `v` lies within `i` hops of `src`
(`none` if there is no such `i`). -/
def searchDist (g : Graph) (src v : String) : Nat → Option Nat
  | 0 => none
  | n + 1 =>
    match searchDist g src v n with
    | some k => some k
    | none => if (reachedIn g src n).contains v then some n else none

/-- Modelled from the spec: the BFS shortest-hop distance from `src` to
`v` ("BFS to compute distance-from-source for every vertex", spec
section 4.1).  A shortest path repeats no vertex, so distances are
bounded by the vertex count and searching `i ≤ |V|` is exhaustive. -/
def bfsDist (g : Graph) (src v : String) : Option Nat :=
  searchDist g src v (g.vertexSet.length + 1)

/-- All predecessors of `v`, one occurrence per edge into `v` ("follows
every edge (u, destination)", spec section 4.1). -/
def predsByEdge (g : Graph) (v : String) : List String :=
  g.vertexSet.flatMap (fun u => (u.adj.filter (fun e => e.dest == v)).map (fun _ => u.info))

/-- Modelled from the spec: backward reconstruction of every shortest
path ending at `v` with `dist v = some k`, following every edge
`(u, v)` with `dist u + 1 = dist v`, recursively (spec section 4.1). -/
def backPaths (g : Graph) (dist : String → Option Nat) : Nat → String → List (List String)
  | 0, v => if dist v = some 0 then [[v]] else []
  | k + 1, v =>
    if dist v = some (k + 1) then
      ((predsByEdge g v).filter (fun u => dist u = some k)).flatMap
        (fun u => (backPaths g dist k u).map (fun p => p ++ [v]))
    else []

/-- Modelled from the spec: `shortestPathSet(source, destination)` -
every shortest path (by hop count) from `s` to `d` as sequences of
airport codes; empty when no path exists or either code is absent
(spec section 4.1). -/
def shortestPathsBFS (g : Graph) (s d : String) : List (List String) :=
  if (findVertex g s).isSome && (findVertex g d).isSome then
    match bfsDist g s d with
    | none => []
    | some k => backPaths g (bfsDist g s) k d
  else []

/-- Restriction of a vertex's adjacency to the edges whose airline is in
the allowed set. -/
def filterVertexAirlines (A : List String) (v : Vertex) : Vertex :=
  { v with adj := v.adj.filter (fun e => A.contains e.airline) }

/-- Modelled from the spec: the subgraph seen by the airline-filtered
search, "restricted to edges whose airline is in allowedAirlines"
(spec section 4.1). -/
def filterGraph (g : Graph) (A : List String) : Graph :=
  { vertexSet := g.vertexSet.map (filterVertexAirlines A) }

/-- Modelled from the spec: the airline-filtered `shortestPathSet`
overload - the same layered search run on the allowed-airline subgraph. -/
def shortestPathsBFSWithAirlines (g : Graph) (s d : String) (A : List String) :
    List (List String) :=
  shortestPathsBFS (filterGraph g A) s d

/-- Modelled from the spec: `nodesAtDistanceBFS(source, k)` - the codes
within at most `k` hops of the source.  The source itself (distance 0)
is included: the caller (FlightManagementSystem.cpp lines 224-258)
subtracts one for the source exactly as its depth-first sibling (lines
176-212) does, and the spec's stop-budget counts (section 4.3) only come
out right on the inclusive reading.  Absent sources yield the empty
list. -/
def nodesAtDistanceBFS (g : Graph) (src : String) (k : Nat) : List String :=
  if (findVertex g src).isSome then reachedIn g src k else []

/-- The airports-table lookup (`airports.find(code)`). -/
def lookupAirport (sys : FlightManagementSystem) (code : String) : Option Airport :=
  sys.airports.lookup code

/-- The city of the airport with the given code (the C++ call
`airports.find(code)->second.getCity()`; the default is never read on the
inputs the program produces, where every graph vertex has a table entry). -/
def getCity (sys : FlightManagementSystem) (code : String) : String :=
  ((lookupAirport sys code).map Airport.city).getD ""

/-- The country of the airport with the given code. -/
def getCountry (sys : FlightManagementSystem) (code : String) : String :=
  ((lookupAirport sys code).map Airport.country).getD ""

/-- Errors a query can produce.  `nullDeref` models the undefined
behaviour of dereferencing the null vertex pointer; `notFound` is the
error the specification prescribes for absent codes (spec section 7). -/
inductive QueryError where
  | nullDeref
  | notFound
deriving DecidableEq

/-- FlightManagementSystem::getNumberOfFlightsFromAirport (cpp lines
59-63): looks the vertex up and immediately reads its out-degree,
without any presence check. -/
def getNumberOfFlightsFromAirport (g : Graph) (airportCode : String) :
    Except QueryError Nat :=
  match findVertex g airportCode with
  | none => Except.error QueryError.nullDeref
  | some v => Except.ok (outdegreeOf v)

/-- FlightManagementSystem::getNumberOfAirlinesFromAirport (cpp lines
74-82): the number of distinct airline codes on the vertex's outgoing
edges; again no presence check before the dereference. -/
def getNumberOfAirlinesFromAirport (g : Graph) (airportCode : String) :
    Except QueryError Nat :=
  match findVertex g airportCode with
  | none => Except.error QueryError.nullDeref
  | some v => Except.ok ((v.adj.map Edge.airline).dedup.length)

/-- The counting block shared verbatim by
numberOfReachableDestinationsFromAirport (cpp lines 185-211) and
numberOfReachableDestinationsFromAirportWithStops (cpp lines 231-257):
distinct-airport, distinct-(city,country) and distinct-country counts
over `destinations`, with one subtracted for the source airport, and for
its city (country) exactly when no other listed airport shares it. -/
def reachableCountsOf (sys : FlightManagementSystem) (airportCode : String)
    (destinations : List String) : Nat × Nat × Nat :=
  let airportsD := destinations.dedup
  let citiesD := (destinations.map (fun c => (getCity sys c, getCountry sys c))).dedup
  let countriesD := (destinations.map (fun c => getCountry sys c)).dedup
  let flagCity :=
    airportsD.all (fun c => c == airportCode || !(getCity sys c == getCity sys airportCode))
  let flagCountry :=
    airportsD.all (fun c => c == airportCode || !(getCountry sys c == getCountry sys airportCode))
  (airportsD.length - 1,
   citiesD.length - (if flagCity then 1 else 0),
   countriesD.length - (if flagCountry then 1 else 0))

/-- FlightManagementSystem::numberOfReachableDestinationsFromAirport (cpp
lines 176-212): a depth-first reach from the looked-up vertex feeds the
counting block.  The C++ passes the unchecked `findVertex` result
straight to `Graph::dfsVisit`, so an absent code dereferences null.  The
reach set is modelled from the spec (`depthFirstReach(source)` produces
the set of vertices reachable from source, section 4.1) as the codes
within `|V|` hops; only the set matters to the counts, not the visit
order. -/
def numberOfReachableDestinationsFromAirport (sys : FlightManagementSystem)
    (airportCode : String) : Except QueryError (Nat × Nat × Nat) :=
  match findVertex sys.flights airportCode with
  | none => Except.error QueryError.nullDeref
  | some _ =>
    Except.ok (reachableCountsOf sys airportCode
      (reachedIn sys.flights airportCode sys.flights.vertexSet.length))

/-- FlightManagementSystem::numberOfReachableDestinationsFromAirportWithStops
(cpp lines 224-258): the codes within `maxStops + 1` hops feed the same
counting block; the graph call itself handles absent sources. -/
def numberOfReachableDestinationsFromAirportWithStops (sys : FlightManagementSystem)
    (airportCode : String) (maxStops : Nat) : Nat × Nat × Nat :=
  reachableCountsOf sys airportCode
    (nodesAtDistanceBFS sys.flights airportCode (maxStops + 1))

/-- The airline codes of every edge from `u` to `v` (cpp lines 388-394:
the inner loop over `s->getAdj()` collecting `edge.getAirline()` for the
edges into `path[i+1]`). -/
def routeAirlines (g : Graph) (u v : String) : List String :=
  match findVertex g u with
  | none => []
  | some s => (s.adj.filter (fun e => e.dest == v)).map Edge.airline

/-- The Route sequence built from one airport-code path (cpp lines
386-397): one Route per consecutive pair, carrying every airline on that
hop. -/
def routesOfPath (g : Graph) : List String → List Route
  | u :: v :: rest => ⟨u, v, routeAirlines g u v⟩ :: routesOfPath g (v :: rest)
  | _ => []

/-- Append a route path unless an equal one is already present (cpp lines
398-400: the `find(paths.begin(), paths.end(), routePath)` guard before
`push_back`). -/
def dedupAppend (paths : List (List Route)) (rp : List Route) : List (List Route) :=
  if rp ∈ paths then paths else paths ++ [rp]

/-- FlightManagementSystem::findBestFlightOptions (cpp lines 381-404):
convert every reconstructed shortest path into a Route sequence,
deduplicating whole itineraries. -/
def findBestFlightOptions (g : Graph) (s d : String) : List (List Route) :=
  (shortestPathsBFS g s d).foldl (fun paths p => dedupAppend paths (routesOfPath g p)) []

/-- The airline codes of every edge from `u` to `v` whose airline is in
the selected set (cpp lines 853-857 of the filtered overload). -/
def routeAirlinesWithin (g : Graph) (A : List String) (u v : String) : List String :=
  match findVertex g u with
  | none => []
  | some s => (s.adj.filter (fun e => e.dest == v && A.contains e.airline)).map Edge.airline

/-- The Route sequence built from one path in the airline-filtered search
(cpp lines 849-861). -/
def routesOfPathWithin (g : Graph) (A : List String) : List String → List Route
  | u :: v :: rest => ⟨u, v, routeAirlinesWithin g A u v⟩ :: routesOfPathWithin g A (v :: rest)
  | _ => []

/-- The airline-filtered FlightManagementSystem::findBestFlightOptions
overload (cpp lines 845-868). -/
def findBestFlightOptionsWithAirlines (g : Graph) (s d : String) (A : List String) :
    List (List Route) :=
  (shortestPathsBFSWithAirlines g s d A).foldl
    (fun paths p => dedupAppend paths (routesOfPathWithin g A p)) []

/-- The distinct airline codes appearing in an itinerary (the keys of the
`airlineCount` map, cpp lines 1470-1475). -/
def allAirlines (routes : List Route) : List String :=
  (routes.flatMap Route.airlines).dedup

/-- How often an airline code occurs across the itinerary's per-hop
airline lists (the value `airlineCount[airline]` accumulates, cpp lines
1471-1475: one increment per list entry). -/
def occCount (routes : List Route) (a : String) : Nat :=
  (routes.flatMap Route.airlines).count a

/-- The largest occurrence count (cpp lines 1477-1482). -/
def maxAirlineCount (routes : List Route) : Nat :=
  ((allAirlines routes).map (occCount routes)).foldr max 0

/-- The airlines attaining the largest occurrence count (cpp lines
1484-1489). -/
def frequentAirlines (routes : List Route) : List String :=
  (allAirlines routes).filter (fun a => occCount routes a = maxAirlineCount routes)

/-- FlightManagementSystem::minimizeAirlines (cpp lines 1469-1502):
when the maximal occurrence count equals the hop count, every hop's
airline list is rewritten to the maximally-frequent airlines; otherwise
the itinerary is returned unchanged. -/
def minimizeAirlines (routes : List Route) : List Route :=
  if maxAirlineCount routes = routes.length then
    routes.map (fun r => { r with airlines := frequentAirlines routes })
  else routes

/-- The exact value of the C++ `DBL_MAX` sentinel,
(2 - 2^-52)·2^1023 = 2^1024 - 2^971, written out as an integer literal. -/
def DBL_MAX : ℚ := 179769313486231570814527423731704356798070567525844996598917476803157260780028538760589558632766878171540458953514382464234321326889464182768467546703537516986049910576551282076245490090389328944075868508455133942304583236903222948165808559332123348274797826204144723168738177180919299881250404026184124858368

/-- The distance one hop contributes in findSmallestDistance (cpp lines
2078-2083): the distance of the FIRST edge in the hop source's adjacency
list whose destination matches, and nothing when no edge matches (the
loop breaks after the first match). -/
def hopDistance (g : Graph) (u v : String) : ℚ :=
  match findVertex g u with
  | none => 0
  | some s =>
    match s.adj.find? (fun e => e.dest == v) with
    | some e => e.distance
    | none => 0

/-- The total distance of one itinerary (cpp lines 2074-2084). -/
def pathDistance (g : Graph) (path : List Route) : ℚ :=
  path.foldl (fun t r => t + hopDistance g r.source r.target) 0

/-- FlightManagementSystem::findSmallestDistance (cpp lines 2064-2099):
0.0 when either code is missing from the airports table, otherwise the
running minimum, over the shortest-hop itineraries, of the summed hop
distances, starting from DBL_MAX. -/
def findSmallestDistance (sys : FlightManagementSystem) (s d : String) : ℚ :=
  if (lookupAirport sys s).isNone ∨ (lookupAirport sys d).isNone then 0
  else
    (findBestFlightOptions sys.flights s d).foldl
      (fun m p =>
        if pathDistance sys.flights p < m then pathDistance sys.flights p else m)
      DBL_MAX

/-- Bool check that consecutive hops chain:
each hop's target is the next hop's source. -/
def routesChain : List Route → Bool
  | r₁ :: r₂ :: rest => r₁.target == r₂.source && routesChain (r₂ :: rest)
  | _ => true

/-- Restriction of an itinerary's per-hop airline sets to the members of
`A` (the post-hoc filtering the spec compares the airline-filtered search
against, spec section 8). -/
def restrictRoutes (A : List String) (it : List Route) : List Route :=
  it.map (fun r => { r with airlines := r.airlines.filter (fun a => A.contains a) })

theorem mem_dedupAppend {paths : List (List Route)} {rp x : List Route}
    (h : x ∈ dedupAppend paths rp) : x ∈ paths ∨ x = rp := by
  unfold dedupAppend at h
  split at h
  · exact Or.inl h
  · rcases List.mem_append.1 h with h' | h'
    · exact Or.inl h'
    · exact Or.inr (List.mem_singleton.1 h')

theorem mem_foldl_dedupAppend (f : List String → List Route) :
    ∀ (l : List (List String)) (acc : List (List Route)) (x : List Route),
      x ∈ l.foldl (fun ps p => dedupAppend ps (f p)) acc →
      x ∈ acc ∨ ∃ p ∈ l, x = f p := by
  intro l
  induction l with
  | nil => intro acc x h; exact Or.inl h
  | cons p rest ih =>
    intro acc x h
    rcases ih (dedupAppend acc (f p)) x h with h' | ⟨q, hq, hx⟩
    · rcases mem_dedupAppend h' with h'' | h''
      · exact Or.inl h''
      · exact Or.inr ⟨p, List.mem_cons_self _ _, h''⟩
    · exact Or.inr ⟨q, List.mem_cons_of_mem _ hq, hx⟩

theorem backPaths_length (g : Graph) (dist : String → Option Nat) :
    ∀ (k : Nat) (v : String) (p : List String),
      p ∈ backPaths g dist k v → p.length = k + 1 := by
  intro k
  induction k with
  | zero =>
    intro v p h
    unfold backPaths at h
    split at h
    · rw [List.mem_singleton.1 h]; rfl
    · exact absurd h (List.not_mem_nil p)
  | succ k ih =>
    intro v p h
    unfold backPaths at h
    split at h
    · rcases List.mem_flatMap.1 h with ⟨u, _, hp⟩
      rcases List.mem_map.1 hp with ⟨q, hq, rfl⟩
      simp [List.length_append, ih u q hq]
    · exact absurd h (List.not_mem_nil p)

theorem routesOfPath_length (g : Graph) :
    ∀ p : List String, (routesOfPath g p).length = p.length - 1 := by
  intro p
  induction p with
  | nil => rfl
  | cons u tl ih =>
    cases tl with
    | nil => rfl
    | cons v rest =>
      simp only [routesOfPath, List.length_cons]
      rw [ih]
      rfl

theorem routesOfPathWithin_length (g : Graph) (A : List String) :
    ∀ p : List String, (routesOfPathWithin g A p).length = p.length - 1 := by
  intro p
  induction p with
  | nil => rfl
  | cons u tl ih =>
    cases tl with
    | nil => rfl
    | cons v rest =>
      simp only [routesOfPathWithin, List.length_cons]
      rw [ih]
      rfl

theorem routesChain_routesOfPath (g : Graph) :
    ∀ p : List String, routesChain (routesOfPath g p) = true := by
  intro p
  induction p with
  | nil => rfl
  | cons u tl ih =>
    cases tl with
    | nil => rfl
    | cons v rest =>
      cases rest with
      | nil => rfl
      | cons w rs =>
        have hh : routesOfPath g (v :: w :: rs) =
            ⟨v, w, routeAirlines g v w⟩ :: routesOfPath g (w :: rs) := rfl
        show routesChain (⟨u, v, routeAirlines g u v⟩ :: routesOfPath g (v :: w :: rs)) = true
        rw [hh]
        show (v == v && routesChain (⟨v, w, routeAirlines g v w⟩ :: routesOfPath g (w :: rs))) = true
        rw [← hh, ih]
        simp

theorem mem_airlines_routesOfPathWithin (g : Graph) (A : List String) :
    ∀ (p : List String) (r : Route), r ∈ routesOfPathWithin g A p →
      ∀ a ∈ r.airlines, a ∈ A := by
  intro p
  induction p with
  | nil => intro r h; exact absurd h (List.not_mem_nil r)
  | cons u tl ih =>
    cases tl with
    | nil => intro r h; exact absurd h (List.not_mem_nil r)
    | cons v rest =>
      intro r hr a ha
      rcases List.mem_cons.1 hr with rfl | hr'
      · simp only [routeAirlinesWithin] at ha
        split at ha
        · exact absurd ha (List.not_mem_nil a)
        · rcases List.mem_map.1 ha with ⟨e, he, rfl⟩
          have hf := (List.mem_filter.1 he).2
          rw [Bool.and_eq_true] at hf
          simpa using hf.2
      · exact ih r hr' a ha

theorem mem_expandReached_of_mem {g : Graph} {l : List String} {x : String}
    (h : x ∈ l) : x ∈ expandReached g l := by
  unfold expandReached
  rw [List.mem_dedup]
  exact List.mem_append.2 (Or.inl h)

theorem succs_subset_expandReached {g : Graph} {l : List String} {u x : String}
    (hu : u ∈ l) (hx : x ∈ succs g u) : x ∈ expandReached g l := by
  unfold expandReached
  rw [List.mem_dedup]
  exact List.mem_append.2 (Or.inr (List.mem_flatMap.2 ⟨u, hu, hx⟩))

theorem self_mem_reachedIn (g : Graph) (src : String) :
    ∀ i, src ∈ reachedIn g src i := by
  intro i
  induction i with
  | zero => exact List.mem_singleton.2 rfl
  | succ i ih => exact mem_expandReached_of_mem ih

theorem reachedIn_nodup (g : Graph) (src : String) :
    ∀ i, (reachedIn g src i).Nodup := by
  intro i
  cases i with
  | zero => exact List.nodup_singleton src
  | succ i => exact List.nodup_dedup _

theorem searchDist_succ (g : Graph) (src v : String) (n : Nat) :
    searchDist g src v (n + 1) =
      match searchDist g src v n with
      | some k => some k
      | none => if (reachedIn g src n).contains v then some n else none := rfl

theorem searchDist_lt_and_mem {g : Graph} {src v : String} :
    ∀ {n k : Nat}, searchDist g src v n = some k → k < n ∧ v ∈ reachedIn g src k := by
  intro n
  induction n with
  | zero => intro k h; exact absurd h (by simp [searchDist])
  | succ n ih =>
    intro k h
    rw [searchDist_succ] at h
    rcases hs : searchDist g src v n with _ | k'
    · simp only [hs] at h
      by_cases hc : (reachedIn g src n).contains v
      · rw [if_pos hc] at h
        injection h with h'
        subst h'
        exact ⟨Nat.lt_succ_self _, by simpa using hc⟩
      · rw [if_neg hc] at h
        exact absurd h (by simp)
    · simp only [hs] at h
      injection h with h'
      subst h'
      obtain ⟨h1, h2⟩ := ih hs
      exact ⟨Nat.lt_succ_of_lt h1, h2⟩

theorem searchDist_le_of_mem {g : Graph} {src v : String} :
    ∀ {n i : Nat}, v ∈ reachedIn g src i → i < n →
      ∃ k, k ≤ i ∧ searchDist g src v n = some k := by
  intro n
  induction n with
  | zero => intro i _ hi; exact absurd hi (Nat.not_lt_zero i)
  | succ n ih =>
    intro i hv hi
    rcases Nat.lt_or_ge i n with hlt | hge
    · obtain ⟨k, hk, hs⟩ := ih hv hlt
      refine ⟨k, hk, ?_⟩
      rw [searchDist_succ, hs]
    · have hin : i = n := Nat.le_antisymm (Nat.lt_succ_iff.1 hi) hge
      subst hin
      rcases hs : searchDist g src v i with _ | k'
      · refine ⟨i, Nat.le_refl i, ?_⟩
        rw [searchDist_succ, hs]
        simp [hv]
      · obtain ⟨h1, _⟩ := searchDist_lt_and_mem hs
        refine ⟨k', Nat.le_of_lt h1, ?_⟩
        rw [searchDist_succ, hs]

theorem findVertex_filterGraph (g : Graph) (A : List String) (code : String) :
    findVertex (filterGraph g A) code =
      (findVertex g code).map (filterVertexAirlines A) := by
  unfold findVertex filterGraph
  induction g.vertexSet with
  | nil => rfl
  | cons v vs ih =>
    simp only [List.map_cons, List.find?_cons]
    by_cases hb : (v.info == code) = true
    · have hb' : ((filterVertexAirlines A v).info == code) = true := hb
      rw [hb', hb]
      rfl
    · have hb' : ((filterVertexAirlines A v).info == code) = false := by
        simpa using hb
      rw [hb', Bool.eq_false_iff.2 hb]
      exact ih

theorem succs_filterGraph_subset (g : Graph) (A : List String) (u : String) :
    ∀ x ∈ succs (filterGraph g A) u, x ∈ succs g u := by
  intro x hx
  unfold succs at hx ⊢
  rw [findVertex_filterGraph] at hx
  rcases hfv : findVertex g u with _ | v
  · rw [hfv] at hx
    exact absurd hx (List.not_mem_nil x)
  · rw [hfv] at hx
    rw [Option.map_some'] at hx
    rcases List.mem_map.1 hx with ⟨e, he, rfl⟩
    exact List.mem_map.2 ⟨e, List.mem_of_mem_filter he, rfl⟩

theorem reachedIn_filterGraph_subset (g : Graph) (A : List String) (src : String) :
    ∀ (i : Nat) (x : String),
      x ∈ reachedIn (filterGraph g A) src i → x ∈ reachedIn g src i := by
  intro i
  induction i with
  | zero => intro x hx; exact hx
  | succ i ih =>
    intro x hx
    unfold reachedIn expandReached at hx
    rw [List.mem_dedup] at hx
    rcases List.mem_append.1 hx with h | h
    · exact mem_expandReached_of_mem (ih x h)
    · rcases List.mem_flatMap.1 h with ⟨u, hu, hxu⟩
      exact succs_subset_expandReached (ih u hu) (succs_filterGraph_subset g A u x hxu)

theorem vertexSet_length_filterGraph (g : Graph) (A : List String) :
    (filterGraph g A).vertexSet.length = g.vertexSet.length := by
  unfold filterGraph
  exact List.length_map _ _

theorem bfsDist_le_of_filterGraph {g : Graph} {A : List String} {s d : String} {k' : Nat}
    (h : bfsDist (filterGraph g A) s d = some k') :
    ∃ k, k ≤ k' ∧ bfsDist g s d = some k := by
  unfold bfsDist at h
  obtain ⟨hk', hmem⟩ := searchDist_lt_and_mem h
  rw [vertexSet_length_filterGraph] at hk'
  exact searchDist_le_of_mem (reachedIn_filterGraph_subset g A s k' d hmem) hk'

/-- Claim C1: for every pair of airport codes present in the graph with at
least one path between them (witnessed by a BFS distance), every itinerary
returned by findBestFlightOptions has exactly that many hops - in
particular all returned itineraries have the same hop count - and its
consecutive hops chain. -/
theorem claim_C1_best_options_hop_count (g : Graph) (s d : String) (k : Nat)
    (hs : (findVertex g s).isSome) (hd : (findVertex g d).isSome)
    (hk : bfsDist g s d = some k) :
    ∀ it ∈ findBestFlightOptions g s d, it.length = k ∧ routesChain it = true := by
  intro it hit
  unfold findBestFlightOptions at hit
  have hsp : shortestPathsBFS g s d = backPaths g (bfsDist g s) k d := by
    unfold shortestPathsBFS
    rw [if_pos (by rw [hs, hd]; rfl)]
    simp only [hk]
  rw [hsp] at hit
  rcases mem_foldl_dedupAppend (routesOfPath g) _ [] it hit with h | ⟨p, hp, rfl⟩
  · exact absurd h (List.not_mem_nil it)
  · refine ⟨?_, routesChain_routesOfPath g p⟩
    rw [routesOfPath_length, backPaths_length g (bfsDist g s) k d p hp]
    rfl

/-- A two-vertex graph whose only flights are the two parallel edges
A→B, one operated by airline X and one by airline Y. -/
def gPar : Graph := ⟨[⟨"A", [⟨"B", "X", 100⟩, ⟨"B", "Y", 100⟩]⟩, ⟨"B", []⟩]⟩

theorem claim_C1_witness :
    ([⟨"A", "B", ["X", "Y"]⟩] : List Route).length = 1 ∧
      routesChain [⟨"A", "B", ["X", "Y"]⟩] = true :=
  claim_C1_best_options_hop_count gPar "A" "B" 1 (by decide) (by decide) (by decide)
    [⟨"A", "B", ["X", "Y"]⟩] (by decide)

/-- Claim C8: on the graph with exactly the two parallel edges A→B
(airlines X and Y), findBestFlightOptions returns exactly one itinerary,
the single hop A→B carrying both airlines - parallel airline-edges are
collapsed into one Route, not returned as two itineraries. -/
theorem claim_C8_parallel_edges_collapse :
    findBestFlightOptions gPar "A" "B" = [[⟨"A", "B", ["X", "Y"]⟩]] := by decide

/-- A graph on vertices A, B, C with a direct hop A→C on airline Y and a
two-hop detour A→B→C entirely on airline X. -/
def gTri : Graph :=
  ⟨[⟨"A", [⟨"C", "Y", 1⟩, ⟨"B", "X", 1⟩]⟩, ⟨"B", [⟨"C", "X", 1⟩]⟩, ⟨"C", []⟩]⟩

/-- Counterexample to claim C3 as stated: restricting to airline set {X}
on `gTri` returns the two-hop itinerary A→B→C, which is not obtainable
from any itinerary of the unfiltered result (that result is exactly the
one-hop itinerary A→C) by restricting per-hop airline sets. -/
theorem claim_C3_counterexample :
    ¬ (∀ it ∈ findBestFlightOptionsWithAirlines gTri "A" "C" ["X"],
        ∃ it₀ ∈ findBestFlightOptions gTri "A" "C",
          it = restrictRoutes ["X"] it₀) := by decide

/-- Claim C3 as amended: every itinerary returned by the airline-filtered
search has at least as many hops as the unrestricted BFS shortest-hop
distance (filtering never invents a shorter path), and no hop of a
returned itinerary carries an airline outside the selected set.  (The
containment in the post-hoc-restricted unfiltered result fails when
filtering lengthens the shortest path, as the counterexample shows.) -/
theorem claim_C3_filtered_options (g : Graph) (s d : String) (A : List String) (k : Nat)
    (_hA : A ≠ []) (hk : bfsDist g s d = some k) :
    ∀ it ∈ findBestFlightOptionsWithAirlines g s d A,
      k ≤ it.length ∧ ∀ r ∈ it, ∀ a ∈ r.airlines, a ∈ A := by
  intro it hit
  unfold findBestFlightOptionsWithAirlines at hit
  rcases mem_foldl_dedupAppend (routesOfPathWithin g A) _ [] it hit with h | ⟨p, hp, rfl⟩
  · exact absurd h (List.not_mem_nil it)
  · refine ⟨?_, fun r hr a ha => mem_airlines_routesOfPathWithin g A p r hr a ha⟩
    unfold shortestPathsBFSWithAirlines shortestPathsBFS at hp
    by_cases hcond :
        ((findVertex (filterGraph g A) s).isSome && (findVertex (filterGraph g A) d).isSome) = true
    · rw [if_pos hcond] at hp
      rcases hbd : bfsDist (filterGraph g A) s d with _ | k'
      · simp only [hbd] at hp
        exact absurd hp (List.not_mem_nil p)
      · simp only [hbd] at hp
        have hlen := backPaths_length _ _ _ _ p hp
        obtain ⟨k₀, hk₀le, hk₀⟩ := bfsDist_le_of_filterGraph hbd
        rw [hk] at hk₀
        injection hk₀ with hkk
        rw [routesOfPathWithin_length, hlen]
        subst hkk
        exact Nat.le_trans hk₀le (Nat.le_of_eq rfl)
    · rw [if_neg hcond] at hp
      exact absurd hp (List.not_mem_nil p)

theorem claim_C3_witness :
    (1 ≤ ([⟨"A", "B", ["X"]⟩, ⟨"B", "C", ["X"]⟩] : List Route).length) ∧
      ("X" ∈ (["X"] : List String)) :=
  ⟨(claim_C3_filtered_options gTri "A" "C" ["X"] 1 (by decide) (by decide)
      [⟨"A", "B", ["X"]⟩, ⟨"B", "C", ["X"]⟩] (by decide)).1,
   (claim_C3_filtered_options gTri "A" "C" ["X"] 1 (by decide) (by decide)
      [⟨"A", "B", ["X"]⟩, ⟨"B", "C", ["X"]⟩] (by decide)).2
     ⟨"B", "C", ["X"]⟩ (by decide) "X" (by decide)⟩

/-- A system with two airports OPO and LIS and one flight between them,
used to probe the queries with the absent code ZZZ. -/
def sysTwo : FlightManagementSystem :=
  ⟨[("OPO", ⟨"Francisco Sa Carneiro", "Porto", "Portugal"⟩),
    ("LIS", ⟨"Humberto Delgado", "Lisboa", "Portugal"⟩)],
   ⟨[⟨"OPO", [⟨"LIS", "TAP", 300⟩]⟩, ⟨"LIS", []⟩]⟩⟩

/-- Claim C2 fails on the code: querying an absent airport code does not
produce a NotFound error after validating the seed vertex - the C++
functions pass the null findVertex result straight to a dereference
(undefined behaviour), modelled as `QueryError.nullDeref`, which is not
the prescribed NotFound signal. -/
theorem claim_C2_absent_code_dereference :
    getNumberOfFlightsFromAirport sysTwo.flights "ZZZ" =
        Except.error QueryError.nullDeref ∧
      getNumberOfAirlinesFromAirport sysTwo.flights "ZZZ" =
        Except.error QueryError.nullDeref ∧
      numberOfReachableDestinationsFromAirport sysTwo "ZZZ" =
        Except.error QueryError.nullDeref ∧
      QueryError.nullDeref ≠ QueryError.notFound := by decide

/-- The claim-side reading of the airline tally: the number of hops on
which an airline code appears ("counts how many hops each airline code
appears on across the whole itinerary", spec section 4.2). -/
def hopCount (routes : List Route) (a : String) : Nat :=
  (routes.filter (fun r => r.airlines.contains a)).length

/-- The largest per-hop appearance count, claim-side. -/
def maxHopCount (routes : List Route) : Nat :=
  ((allAirlines routes).map (hopCount routes)).foldr max 0

/-- The airlines appearing on the most hops, claim-side. -/
def frequentAirlinesByHops (routes : List Route) : List String :=
  (allAirlines routes).filter (fun a => hopCount routes a = maxHopCount routes)

/-- minimizeAirlines as the claim describes it: count hops (not
occurrences) per airline and rewrite exactly when the maximum hop count
equals the number of hops. -/
def minimizeAirlinesByHops (routes : List Route) : List Route :=
  if maxHopCount routes = routes.length then
    routes.map (fun r => { r with airlines := frequentAirlinesByHops routes })
  else routes

theorem occCount_eq_hopCount (a : String) :
    ∀ routes : List Route, (∀ r ∈ routes, r.airlines.Nodup) →
      occCount routes a = hopCount routes a := by
  intro routes
  induction routes with
  | nil => intro _; rfl
  | cons r rs ih =>
    intro h
    have hr := h r (List.mem_cons_self r rs)
    have hocc : occCount (r :: rs) a = r.airlines.count a + occCount rs a := by
      unfold occCount
      rw [List.flatMap_cons, List.count_append]
    have hhop : hopCount (r :: rs) a =
        (if r.airlines.contains a then 1 else 0) + hopCount rs a := by
      unfold hopCount
      rw [List.filter_cons]
      by_cases hc : (r.airlines.contains a) = true
      · rw [if_pos hc, if_pos hc, List.length_cons]
        omega
      · rw [if_neg hc, if_neg hc]
        omega
    rw [hocc, hhop, ih (fun x hx => h x (List.mem_cons_of_mem r hx))]
    by_cases hm : a ∈ r.airlines
    · rw [List.count_eq_one_of_mem hr hm, if_pos (by simpa using hm)]
    · rw [List.count_eq_zero.2 hm, if_neg (by simpa using hm)]

/-- A two-hop itinerary whose first hop repeats airline X in its list;
occurrence counting (the code) and hop counting (the claim) disagree on
it. -/
def rtsDup : List Route := [⟨"A", "B", ["X", "X"]⟩, ⟨"B", "C", ["X", "Y"]⟩]

/-- Counterexample to claim C4 as stated: on `rtsDup` the maximal
hop-appearance count (2, for X) equals the hop count, so the claim says
every hop's airline set is rewritten to the maximally-frequent set {X};
but the code counts occurrences (3 for X, which differs from the hop
count 2), takes the `unchanged` branch, and hop 2 still carries Y. -/
theorem claim_C4_counterexample :
    minimizeAirlines rtsDup = rtsDup ∧
      minimizeAirlinesByHops rtsDup = [⟨"A", "B", ["X"]⟩, ⟨"B", "C", ["X"]⟩] ∧
      minimizeAirlines rtsDup ≠ minimizeAirlinesByHops rtsDup := by decide

/-- Claim C4 as amended: on itineraries whose per-hop airline lists are
duplicate-free, minimizeAirlines behaves exactly as the claim describes -
it counts the hops on which each airline appears, finds the maximum, and
rewrites every hop's airline set to the maximally-frequent set exactly
when that maximum equals the number of hops; with duplicated list entries
the code's tally is occurrence-based rather than hop-based. -/
theorem claim_C4_minimize_matches_hop_description (routes : List Route)
    (h : ∀ r ∈ routes, r.airlines.Nodup) :
    minimizeAirlines routes = minimizeAirlinesByHops routes := by
  have hcnt : ∀ a, occCount routes a = hopCount routes a :=
    fun a => occCount_eq_hopCount a routes h
  have hmax : maxAirlineCount routes = maxHopCount routes := by
    unfold maxAirlineCount maxHopCount
    congr 1
    exact List.map_congr_left (fun a _ => hcnt a)
  have hfreq : frequentAirlines routes = frequentAirlinesByHops routes := by
    unfold frequentAirlines frequentAirlinesByHops
    refine List.filter_congr ?_
    intro a _
    rw [hcnt a, hmax]
  unfold minimizeAirlines minimizeAirlinesByHops
  rw [hmax, hfreq]

/-- A duplicate-free two-hop itinerary. -/
def rtsPlain : List Route := [⟨"A", "B", ["X"]⟩, ⟨"B", "C", ["X", "Y"]⟩]

theorem claim_C4_witness :
    minimizeAirlines rtsPlain = minimizeAirlinesByHops rtsPlain :=
  claim_C4_minimize_matches_hop_description rtsPlain (by decide)

theorem foldr_max_zero_or_mem : ∀ l : List Nat, l.foldr max 0 = 0 ∨ l.foldr max 0 ∈ l := by
  intro l
  induction l with
  | nil => exact Or.inl rfl
  | cons x xs ih =>
    rcases max_choice x (xs.foldr max 0) with h | h
    · right
      rw [List.foldr_cons, h]
      exact List.mem_cons_self x xs
    · rw [List.foldr_cons, h]
      rcases ih with h0 | hm
      · exact Or.inl h0
      · exact Or.inr (List.mem_cons_of_mem x hm)

theorem foldr_max_const :
    ∀ (l : List Nat) (c : Nat), l ≠ [] → (∀ x ∈ l, x = c) → l.foldr max 0 = c := by
  intro l
  induction l with
  | nil => intro c h _; exact absurd rfl h
  | cons x xs ih =>
    intro c _ hall
    cases xs with
    | nil =>
      show max x 0 = c
      rw [hall x (List.mem_cons_self x []), Nat.max_zero]
    | cons y ys =>
      have h1 : ((y :: ys).foldr max 0) = c :=
        ih c (by simp) (fun z hz => hall z (List.mem_cons_of_mem x hz))
      show max x ((y :: ys).foldr max 0) = c
      rw [h1, hall x (List.mem_cons_self x (y :: ys)), Nat.max_self]

theorem count_flatMap_const (F : List String) (a : String) :
    ∀ l : List Route, (l.flatMap (fun _ => F)).count a = l.length * F.count a := by
  intro l
  induction l with
  | nil => simp
  | cons r rs ih =>
    rw [List.flatMap_cons, List.count_append, ih, List.length_cons, Nat.succ_mul]
    omega

theorem union_eq_right_of_subset :
    ∀ (l₁ l₂ : List String), (∀ a ∈ l₁, a ∈ l₂) → l₁ ∪ l₂ = l₂ := by
  intro l₁
  induction l₁ with
  | nil => intro l₂ _; rfl
  | cons a l ih =>
    intro l₂ h
    rw [List.cons_union, ih l₂ (fun x hx => h x (List.mem_cons_of_mem a hx)),
      List.insert_of_mem (h a (List.mem_cons_self a l))]

theorem dedup_flatMap_const :
    ∀ (l : List Route) (F : List String), l ≠ [] → F.Nodup →
      (l.flatMap (fun _ => F)).dedup = F := by
  intro l
  induction l with
  | nil => intro F h _; exact absurd rfl h
  | cons r rs ih =>
    intro F _ hF
    cases rs with
    | nil =>
      rw [List.flatMap_cons, List.flatMap_nil, List.append_nil, List.dedup_eq_self.2 hF]
    | cons r₂ rs₂ =>
      rw [List.flatMap_cons, List.dedup_append, ih F (by simp) hF,
        union_eq_right_of_subset F F (fun a ha => ha)]

theorem flatMap_airlines_rewrite (routes : List Route) (F : List String) :
    (routes.map (fun r => { r with airlines := F })).flatMap Route.airlines =
      routes.flatMap (fun _ => F) := by
  induction routes with
  | nil => rfl
  | cons r rs ih => simp only [List.map_cons, List.flatMap_cons, ih]

theorem frequentAirlines_nodup (routes : List Route) : (frequentAirlines routes).Nodup :=
  (List.nodup_dedup _).filter _

theorem frequentAirlines_ne_nil (routes : List Route)
    (hpos : 0 < maxAirlineCount routes) : frequentAirlines routes ≠ [] := by
  rcases foldr_max_zero_or_mem ((allAirlines routes).map (occCount routes)) with h0 | hm
  · exfalso
    have hz : maxAirlineCount routes = 0 := h0
    omega
  · rcases List.mem_map.1 hm with ⟨a, ha, hocc⟩
    have haf : a ∈ frequentAirlines routes := by
      unfold frequentAirlines
      exact List.mem_filter.2 ⟨ha, by simpa [maxAirlineCount] using hocc⟩
    exact List.ne_nil_of_mem haf

/-- Claim C5: minimizeAirlines is idempotent - applying it twice yields
the same itinerary as applying it once, for every vector of Route hops. -/
theorem claim_C5_minimizeAirlines_idempotent (routes : List Route) :
    minimizeAirlines (minimizeAirlines routes) = minimizeAirlines routes := by
  by_cases hmax : maxAirlineCount routes = routes.length
  · cases routes with
    | nil => rfl
    | cons r rs =>
      have hpos : 0 < maxAirlineCount (r :: rs) := by
        rw [hmax]
        exact Nat.succ_pos rs.length
      have h1 : minimizeAirlines (r :: rs) =
          (r :: rs).map (fun x => { x with airlines := frequentAirlines (r :: rs) }) := by
        unfold minimizeAirlines
        rw [if_pos hmax]
      have hne : frequentAirlines (r :: rs) ≠ [] := frequentAirlines_ne_nil _ hpos
      have hnd : (frequentAirlines (r :: rs)).Nodup := frequentAirlines_nodup _
      have hflat :
          (((r :: rs).map (fun x => { x with airlines := frequentAirlines (r :: rs) })).flatMap
            Route.airlines) = (r :: rs).flatMap (fun _ => frequentAirlines (r :: rs)) :=
        flatMap_airlines_rewrite _ _
      have hall' :
          allAirlines ((r :: rs).map
              (fun x => { x with airlines := frequentAirlines (r :: rs) })) =
            frequentAirlines (r :: rs) := by
        unfold allAirlines
        rw [hflat]
        exact dedup_flatMap_const _ _ (by simp) hnd
      have hocc' : ∀ a ∈ frequentAirlines (r :: rs),
          occCount ((r :: rs).map
              (fun x => { x with airlines := frequentAirlines (r :: rs) })) a =
            (r :: rs).length := by
        intro a ha
        unfold occCount
        rw [hflat, count_flatMap_const, List.count_eq_one_of_mem hnd ha, Nat.mul_one]
      have hmax' : maxAirlineCount ((r :: rs).map
            (fun x => { x with airlines := frequentAirlines (r :: rs) })) =
          (r :: rs).length := by
        unfold maxAirlineCount
        rw [hall']
        refine foldr_max_const _ _ ?_ ?_
        · intro hemp
          exact hne (List.map_eq_nil_iff.1 hemp)
        · intro x hx
          rcases List.mem_map.1 hx with ⟨a, ha, rfl⟩
          exact hocc' a ha
      have hfreq' : frequentAirlines ((r :: rs).map
            (fun x => { x with airlines := frequentAirlines (r :: rs) })) =
          frequentAirlines (r :: rs) := by
        have hdef : frequentAirlines ((r :: rs).map
              (fun x => { x with airlines := frequentAirlines (r :: rs) })) =
            (allAirlines ((r :: rs).map
                (fun x => { x with airlines := frequentAirlines (r :: rs) }))).filter
              (fun a => decide (occCount ((r :: rs).map
                  (fun x => { x with airlines := frequentAirlines (r :: rs) })) a =
                maxAirlineCount ((r :: rs).map
                  (fun x => { x with airlines := frequentAirlines (r :: rs) })))) := rfl
        rw [hdef, hall']
        refine List.filter_eq_self.2 ?_
        intro a ha
        simp only [decide_eq_true_eq]
        rw [hocc' a ha, hmax']
      rw [h1]
      unfold minimizeAirlines
      rw [if_pos (by rw [hmax', List.length_map])]
      rw [hfreq', List.map_map]
      rfl
  · have h1 : minimizeAirlines routes = routes := by
      unfold minimizeAirlines
      rw [if_neg hmax]
    rw [h1, h1]

/-- Claim-side airport count for the stop-budget query: the distinct
airports within `maxStops + 1` hops of the source, the source's own
airport excluded. -/
def specReachableAirportCount (sys : FlightManagementSystem) (code : String)
    (maxStops : Nat) : Nat :=
  ((nodesAtDistanceBFS sys.flights code (maxStops + 1)).toFinset.erase code).card

/-- Claim-side city count: the distinct (city, country) pairs within
`maxStops + 1` hops, the source's own pair excluded unless some other
reachable airport shares the source's city. -/
def specReachableCityCount (sys : FlightManagementSystem) (code : String)
    (maxStops : Nat) : Nat :=
  let D := nodesAtDistanceBFS sys.flights code (maxStops + 1)
  if ∃ c ∈ D, c ≠ code ∧ getCity sys c = getCity sys code then
    (D.map (fun c => (getCity sys c, getCountry sys c))).toFinset.card
  else
    ((D.map (fun c => (getCity sys c, getCountry sys c))).toFinset.erase
      (getCity sys code, getCountry sys code)).card

/-- Claim-side country count: the distinct countries within
`maxStops + 1` hops, the source's own country excluded unless some other
reachable airport shares it. -/
def specReachableCountryCount (sys : FlightManagementSystem) (code : String)
    (maxStops : Nat) : Nat :=
  let D := nodesAtDistanceBFS sys.flights code (maxStops + 1)
  if ∃ c ∈ D, c ≠ code ∧ getCountry sys c = getCountry sys code then
    (D.map (fun c => getCountry sys c)).toFinset.card
  else
    ((D.map (fun c => getCountry sys c)).toFinset.erase (getCountry sys code)).card

theorem dedup_length_sub_flag_eq_spec {β : Type} [DecidableEq β]
    (D : List String) (code : String) (f : String → String) (m : String → β)
    (hmem : code ∈ D) :
    (D.map m).dedup.length -
        (if D.dedup.all (fun c => c == code || !(f c == f code)) then 1 else 0) =
      (if ∃ c ∈ D, c ≠ code ∧ f c = f code then (D.map m).toFinset.card
       else ((D.map m).toFinset.erase (m code)).card) := by
  by_cases hex : ∃ c ∈ D, c ≠ code ∧ f c = f code
  · rw [if_pos hex]
    have hflag : (D.dedup.all (fun c => c == code || !(f c == f code))) = false := by
      obtain ⟨c, hc, hne, hf⟩ := hex
      apply List.all_eq_false.2
      exact ⟨c, List.mem_dedup.2 hc, by simp [hne, hf]⟩
    rw [hflag, List.card_toFinset]
    simp
  · rw [if_neg hex]
    have hflag : (D.dedup.all (fun c => c == code || !(f c == f code))) = true := by
      rw [List.all_eq_true]
      intro c hc
      by_cases hcc : c = code
      · simp [hcc]
      · have hnf : ¬ f c = f code := fun hf => hex ⟨c, List.mem_dedup.1 hc, hcc, hf⟩
        simp [hcc, hnf]
    rw [hflag,
      Finset.card_erase_of_mem (List.mem_toFinset.2 (List.mem_map.2 ⟨code, hmem, rfl⟩)),
      List.card_toFinset]
    simp

/-- Claim C6: for a present airport code, the stop-budget reachability
query returns exactly the counts the claim describes - distinct airports
within maxStops+1 hops minus the source itself, and distinct
(city, country) pairs and countries with the source's own city/country
excluded exactly when no other reachable airport shares it. -/
theorem claim_C6_stop_budget_counts (sys : FlightManagementSystem) (code : String)
    (maxStops : Nat) (h : (findVertex sys.flights code).isSome) :
    numberOfReachableDestinationsFromAirportWithStops sys code maxStops =
      (specReachableAirportCount sys code maxStops,
       specReachableCityCount sys code maxStops,
       specReachableCountryCount sys code maxStops) := by
  have hnodup : (nodesAtDistanceBFS sys.flights code (maxStops + 1)).Nodup := by
    unfold nodesAtDistanceBFS
    rw [if_pos h]
    exact reachedIn_nodup _ _ _
  have hmem : code ∈ nodesAtDistanceBFS sys.flights code (maxStops + 1) := by
    unfold nodesAtDistanceBFS
    rw [if_pos h]
    exact self_mem_reachedIn _ _ _
  have comp1 : (nodesAtDistanceBFS sys.flights code (maxStops + 1)).dedup.length - 1 =
      specReachableAirportCount sys code maxStops := by
    unfold specReachableAirportCount
    rw [List.dedup_eq_self.2 hnodup,
      Finset.card_erase_of_mem (List.mem_toFinset.2 hmem),
      List.toFinset_card_of_nodup hnodup]
  unfold numberOfReachableDestinationsFromAirportWithStops reachableCountsOf
  simp only [Prod.mk.injEq]
  exact ⟨comp1,
    dedup_length_sub_flag_eq_spec _ code (fun c => getCity sys c)
      (fun c => (getCity sys c, getCountry sys c)) hmem,
    dedup_length_sub_flag_eq_spec _ code (fun c => getCountry sys c)
      (fun c => getCountry sys c) hmem⟩

/-- A system with two airports in different cities and countries and a
single flight between them. -/
def sysSmall : FlightManagementSystem :=
  ⟨[("AAA", ⟨"A airport", "X", "CX"⟩), ("BBB", ⟨"B airport", "Y", "CY"⟩)],
   ⟨[⟨"AAA", [⟨"BBB", "T", 7⟩]⟩, ⟨"BBB", []⟩]⟩⟩

theorem claim_C6_witness :
    numberOfReachableDestinationsFromAirportWithStops sysSmall "AAA" 0 =
      (specReachableAirportCount sysSmall "AAA" 0,
       specReachableCityCount sysSmall "AAA" 0,
       specReachableCountryCount sysSmall "AAA" 0) :=
  claim_C6_stop_budget_counts sysSmall "AAA" 0 (by decide)

/-- Every two parallel edges between the same ordered vertex pair carry
the same physical distance - the condition under which "the per-hop
physical distance" of a hop is well defined (claim C9 records what the
code does when it fails). -/
def distanceConsistent (g : Graph) : Prop :=
  ∀ v ∈ g.vertexSet, ∀ e₁ ∈ v.adj, ∀ e₂ ∈ v.adj,
    e₁.dest = e₂.dest → e₁.distance = e₂.distance

instance (g : Graph) : Decidable (distanceConsistent g) := by
  unfold distanceConsistent
  infer_instance

/-- The minimum of a list of rationals, `none` when the list is empty. -/
def minimumOf : List ℚ → Option ℚ
  | [] => none
  | x :: xs =>
    match minimumOf xs with
    | none => some x
    | some m => some (min x m)

/-- Claim-side hop distance: the (under `distanceConsistent` unique,
here: minimal) distance of an edge from `u` to `v`; 0 when no such edge
exists. -/
def specHopDistance (g : Graph) (u v : String) : ℚ :=
  match findVertex g u with
  | none => 0
  | some s => (minimumOf ((s.adj.filter (fun e => e.dest == v)).map Edge.distance)).getD 0

/-- Claim-side itinerary distance: the sum of the per-hop physical
distances. -/
def specPathDistance (g : Graph) (path : List Route) : ℚ :=
  (path.map (fun r => specHopDistance g r.source r.target)).sum

theorem minimumOf_const :
    ∀ (l : List ℚ) (c : ℚ), l ≠ [] → (∀ x ∈ l, x = c) → minimumOf l = some c := by
  intro l
  induction l with
  | nil => intro c h _; exact absurd rfl h
  | cons x xs ih =>
    intro c _ hall
    cases xs with
    | nil =>
      show some x = some c
      rw [hall x (List.mem_cons_self x [])]
    | cons y ys =>
      have h1 : minimumOf (y :: ys) = some c :=
        ih c (by simp) (fun z hz => hall z (List.mem_cons_of_mem x hz))
      show (match minimumOf (y :: ys) with
        | none => some x
        | some m => some (min x m)) = some c
      simp only [h1]
      rw [hall x (List.mem_cons_self x (y :: ys)), min_self]

theorem minimumOf_mem : ∀ {l : List ℚ} {m : ℚ}, minimumOf l = some m → m ∈ l := by
  intro l
  induction l with
  | nil => intro m h; exact absurd h (by simp [minimumOf])
  | cons x xs ih =>
    intro m h
    unfold minimumOf at h
    rcases hs : minimumOf xs with _ | m'
    · simp only [hs] at h
      injection h with h'
      exact h' ▸ List.mem_cons_self x xs
    · simp only [hs] at h
      injection h with h'
      rcases min_choice x m' with hc | hc
      · rw [← h', hc]
        exact List.mem_cons_self x xs
      · rw [← h', hc]
        exact List.mem_cons_of_mem x (ih hs)

theorem find?_of_first {p : Edge → Bool} :
    ∀ (pre : List Edge) (e : Edge) (rest : List Edge),
      (∀ e' ∈ pre, p e' = false) → p e = true →
      (pre ++ e :: rest).find? p = some e := by
  intro pre
  induction pre with
  | nil =>
    intro e rest _ he
    rw [List.nil_append, List.find?_cons, he]
  | cons q qs ih =>
    intro e rest hpre he
    rw [List.cons_append, List.find?_cons, hpre q (List.mem_cons_self q qs)]
    exact ih e rest (fun x hx => hpre x (List.mem_cons_of_mem q hx)) he

theorem hopDistance_eq_spec (g : Graph) (hg : distanceConsistent g) (u v : String) :
    hopDistance g u v = specHopDistance g u v := by
  unfold hopDistance specHopDistance
  rcases hfv : findVertex g u with _ | s
  · simp only [hfv]
  · simp only [hfv]
    have hs : s ∈ g.vertexSet := List.mem_of_find?_eq_some hfv
    rcases hfind : s.adj.find? (fun e => e.dest == v) with _ | e
    · have hnil : s.adj.filter (fun e => e.dest == v) = [] := by
        rw [List.filter_eq_nil_iff]
        intro e he
        exact (List.find?_eq_none.1 hfind) e he
      simp only [hfind, hnil]
      rfl
    · have hmem : e ∈ s.adj := List.mem_of_find?_eq_some hfind
      have hpe0 := List.find?_some hfind
      have hpe : (e.dest == v) = true := hpe0
      have hne : e ∈ s.adj.filter (fun e => e.dest == v) :=
        List.mem_filter.2 ⟨hmem, hpe⟩
      have hconst : ∀ x ∈ (s.adj.filter (fun e => e.dest == v)).map Edge.distance,
          x = e.distance := by
        intro x hx
        rcases List.mem_map.1 hx with ⟨e', he', rfl⟩
        have h1 := List.mem_filter.1 he'
        exact hg s hs e' h1.1 e hmem (by
          have h2 := h1.2
          rw [beq_iff_eq] at h2 hpe
          rw [h2, hpe])
      simp only [hfind]
      rw [minimumOf_const _ e.distance
        (List.ne_nil_of_mem (List.mem_map.2 ⟨e, hne, rfl⟩)) hconst]
      rfl

theorem foldl_add_eq_sum (f : Route → ℚ) :
    ∀ (p : List Route) (t : ℚ), p.foldl (fun acc r => acc + f r) t = t + (p.map f).sum := by
  intro p
  induction p with
  | nil => intro t; simp
  | cons r rs ih =>
    intro t
    rw [List.foldl_cons, ih, List.map_cons, List.sum_cons, add_assoc]

theorem pathDistance_eq_spec (g : Graph) (hg : distanceConsistent g) (path : List Route) :
    pathDistance g path = specPathDistance g path := by
  unfold pathDistance specPathDistance
  have hfun : ∀ r : Route, hopDistance g r.source r.target = specHopDistance g r.source r.target :=
    fun r => hopDistance_eq_spec g hg r.source r.target
  calc path.foldl (fun t r => t + hopDistance g r.source r.target) 0
      = 0 + (path.map (fun r => hopDistance g r.source r.target)).sum :=
        foldl_add_eq_sum _ path 0
    _ = (path.map (fun r => specHopDistance g r.source r.target)).sum := by
        rw [zero_add, List.map_congr_left (fun r _ => hfun r)]

theorem foldl_min_eq_minimumOf :
    ∀ (l : List ℚ) (m : ℚ),
      l.foldl (fun acc x => if x < acc then x else acc) m =
        match minimumOf l with
        | none => m
        | some k => min m k := by
  intro l
  induction l with
  | nil => intro m; rfl
  | cons x xs ih =>
    intro m
    rw [List.foldl_cons, ih (if x < m then x else m)]
    have hstep : (if x < m then x else m) = min m x := by
      rcases lt_or_ge x m with h | h
      · rw [if_pos h, min_eq_right (le_of_lt h)]
      · rw [if_neg (not_lt.2 h), min_eq_left h]
    have hRHS : minimumOf (x :: xs) =
        match minimumOf xs with
        | none => some x
        | some m => some (min x m) := rfl
    rw [hRHS]
    rcases hs : minimumOf xs with _ | k
    · simp only [hs]
      exact hstep
    · simp only [hs]
      rw [hstep, min_assoc]

/-- If the two airport codes are present in the table, findSmallestDistance
is the fold of the running minimum over the returned itineraries. -/
theorem findSmallestDistance_valid (sys : FlightManagementSystem) (s d : String)
    (hs : (lookupAirport sys s).isSome) (hd : (lookupAirport sys d).isSome) :
    findSmallestDistance sys s d =
      (findBestFlightOptions sys.flights s d).foldl
        (fun m p =>
          if pathDistance sys.flights p < m then pathDistance sys.flights p else m)
        DBL_MAX := by
  unfold findSmallestDistance
  rw [if_neg]
  intro hcon
  rcases hcon with h | h
  · rw [Option.isNone_iff_eq_none.1 h] at hs
    exact absurd hs (by simp)
  · rw [Option.isNone_iff_eq_none.1 h] at hd
    exact absurd hd (by simp)

theorem shortestPathsBFS_of_no_path {g : Graph} {s d : String}
    (h : bfsDist g s d = none) : shortestPathsBFS g s d = [] := by
  unfold shortestPathsBFS
  by_cases hcond : ((findVertex g s).isSome && (findVertex g d).isSome) = true
  · rw [if_pos hcond]
    simp only [h]
  · rw [if_neg hcond]

/-- The spec's concrete scenario system: edges A→B (airline X, distance
100), B→C (airline Y, 150), A→C (airline X, 300), each airport in its own
city and country. -/
def sysScenario : FlightManagementSystem :=
  ⟨[("A", ⟨"Airport A", "CityA", "CountryA"⟩), ("B", ⟨"Airport B", "CityB", "CountryB"⟩),
    ("C", ⟨"Airport C", "CityC", "CountryC"⟩)],
   ⟨[⟨"A", [⟨"B", "X", 100⟩, ⟨"C", "X", 300⟩]⟩, ⟨"B", [⟨"C", "Y", 150⟩]⟩, ⟨"C", []⟩]⟩⟩

/-- Claim C7: for present airport codes, findSmallestDistance returns the
DBL_MAX sentinel when no path exists (first part); with well-defined
per-hop distances it returns the minimum, over the shortest-hop-count
itineraries of findBestFlightOptions, of the summed per-hop physical
distances (second part); and on the concrete scenario graph with
A→B (X, 100), B→C (Y, 150), A→C (X, 300) it returns 300 for (A, C)
(third part). -/
theorem claim_C7_smallest_distance :
    (∀ (sys : FlightManagementSystem) (s d : String),
      (lookupAirport sys s).isSome → (lookupAirport sys d).isSome →
      bfsDist sys.flights s d = none → findSmallestDistance sys s d = DBL_MAX) ∧
    (∀ (sys : FlightManagementSystem) (s d : String),
      (lookupAirport sys s).isSome → (lookupAirport sys d).isSome →
      distanceConsistent sys.flights →
      (∀ p ∈ findBestFlightOptions sys.flights s d,
        specPathDistance sys.flights p < DBL_MAX) →
      findSmallestDistance sys s d =
        (minimumOf ((findBestFlightOptions sys.flights s d).map
          (specPathDistance sys.flights))).getD DBL_MAX) ∧
    findSmallestDistance sysScenario "A" "C" = 300 := by
  refine ⟨?_, ?_, ?_⟩
  · intro sys s d hs hd hnone
    rw [findSmallestDistance_valid sys s d hs hd]
    have hempty : findBestFlightOptions sys.flights s d = [] := by
      unfold findBestFlightOptions
      rw [shortestPathsBFS_of_no_path hnone]
      rfl
    rw [hempty]
    rfl
  · intro sys s d hs hd hcons hbound
    rw [findSmallestDistance_valid sys s d hs hd]
    have hmap : ∀ p ∈ findBestFlightOptions sys.flights s d,
        pathDistance sys.flights p = specPathDistance sys.flights p :=
      fun p _ => pathDistance_eq_spec sys.flights hcons p
    have step1 : (findBestFlightOptions sys.flights s d).foldl
          (fun m p =>
            if pathDistance sys.flights p < m then pathDistance sys.flights p else m)
          DBL_MAX =
        ((findBestFlightOptions sys.flights s d).map (pathDistance sys.flights)).foldl
          (fun m x => if x < m then x else m) DBL_MAX :=
      (List.foldl_map (pathDistance sys.flights) (fun (m x : ℚ) => if x < m then x else m)
        (findBestFlightOptions sys.flights s d) DBL_MAX).symm
    rw [List.map_congr_left hmap] at step1
    rw [step1, foldl_min_eq_minimumOf]
    rcases hmin : minimumOf ((findBestFlightOptions sys.flights s d).map
        (specPathDistance sys.flights)) with _ | k
    · simp only [hmin]
      rfl
    · simp only [hmin]
      show min DBL_MAX k = k
      have hk := minimumOf_mem hmin
      rcases List.mem_map.1 hk with ⟨p, hp, rfl⟩
      exact min_eq_right (le_of_lt (hbound p hp))
  · have h1 : findBestFlightOptions sysScenario.flights "A" "C" =
        [[⟨"A", "C", ["X"]⟩]] := by decide
    have h2 : hopDistance sysScenario.flights "A" "C" = 300 := rfl
    rw [findSmallestDistance_valid sysScenario "A" "C" (by decide) (by decide), h1]
    simp [pathDistance, h2]
    norm_num [DBL_MAX]

theorem claim_C7_witness :
    findSmallestDistance sysScenario "C" "A" = DBL_MAX ∧
      findSmallestDistance sysScenario "A" "C" =
        (minimumOf ((findBestFlightOptions sysScenario.flights "A" "C").map
          (specPathDistance sysScenario.flights))).getD DBL_MAX := by
  constructor
  · exact claim_C7_smallest_distance.1 sysScenario "C" "A" (by decide) (by decide) (by decide)
  · refine claim_C7_smallest_distance.2.1 sysScenario "A" "C" (by decide) (by decide)
      (by decide) ?_
    intro p hp
    rw [show findBestFlightOptions sysScenario.flights "A" "C" =
        [[⟨"A", "C", ["X"]⟩]] from by decide] at hp
    have hp' : p = [⟨"A", "C", ["X"]⟩] := List.mem_singleton.1 hp
    subst hp'
    have hop : specHopDistance sysScenario.flights "A" "C" = 300 := rfl
    show specPathDistance sysScenario.flights [⟨"A", "C", ["X"]⟩] < DBL_MAX
    unfold specPathDistance
    simp only [List.map_cons, List.map_nil, List.sum_cons, List.sum_nil, add_zero]
    rw [hop]
    norm_num [DBL_MAX]

/-- A system whose A→B hop is served by two parallel edges of different
distances: first airline X at distance 500, then airline Y at distance
100. -/
def sysParDist : FlightManagementSystem :=
  ⟨[("A", ⟨"Airport A", "CityA", "CountryA"⟩), ("B", ⟨"Airport B", "CityB", "CountryB"⟩)],
   ⟨[⟨"A", [⟨"B", "X", 500⟩, ⟨"B", "Y", 100⟩]⟩, ⟨"B", []⟩]⟩⟩

/-- Claim C9: each hop of a candidate itinerary in findSmallestDistance
contributes the distance of the FIRST edge in the hop source's adjacency
list whose destination matches (the selection never looks at the
airline), so on `sysParDist` the function returns 500 - the first
parallel edge - and not the parallel-edge minimum 100. -/
theorem claim_C9_first_edge_distance :
    (∀ (g : Graph) (u v : String) (s : Vertex) (pre : List Edge) (e : Edge)
        (rest : List Edge),
      findVertex g u = some s → s.adj = pre ++ e :: rest →
      (∀ e' ∈ pre, e'.dest ≠ v) → e.dest = v →
      hopDistance g u v = e.distance) ∧
    findSmallestDistance sysParDist "A" "B" = 500 ∧
    specHopDistance sysParDist.flights "A" "B" = 100 ∧
    (500 : ℚ) ≠ 100 := by
  refine ⟨?_, ?_, ?_, ?_⟩
  · intro g u v s pre e rest hfv hadj hpre he
    unfold hopDistance
    simp only [hfv]
    rw [hadj, find?_of_first pre e rest
      (fun e' he' => by simp [hpre e' he']) (by simp [he])]
  · have h1 : findBestFlightOptions sysParDist.flights "A" "B" =
        [[⟨"A", "B", ["X", "Y"]⟩]] := by decide
    have h2 : hopDistance sysParDist.flights "A" "B" = 500 := rfl
    rw [findSmallestDistance_valid sysParDist "A" "B" (by decide) (by decide), h1]
    simp [pathDistance, h2]
    norm_num [DBL_MAX]
  · have hmin : specHopDistance sysParDist.flights "A" "B" = min 500 100 := rfl
    rw [hmin, min_eq_right (by norm_num)]
  · norm_num

theorem claim_C9_witness :
    hopDistance sysParDist.flights "A" "B" = (500 : ℚ) :=
  claim_C9_first_edge_distance.1 sysParDist.flights "A" "B"
    ⟨"A", [⟨"B", "X", 500⟩, ⟨"B", "Y", 100⟩]⟩ [] ⟨"B", "X", 500⟩ [⟨"B", "Y", 100⟩]
    (by decide) rfl (by decide) rfl

/-- A system with a genuine zero-distance flight A→B. -/
def sysZeroDist : FlightManagementSystem :=
  ⟨[("A", ⟨"Airport A", "CityA", "CountryA"⟩), ("B", ⟨"Airport B", "CityB", "CountryB"⟩)],
   ⟨[⟨"A", [⟨"B", "X", 0⟩]⟩, ⟨"B", []⟩]⟩⟩

/-- Claim C10: whenever either code is missing from the airports table,
findSmallestDistance returns 0.0 instead of signalling NotFound; 0.0 is
distinct from the DBL_MAX no-path sentinel and indistinguishable from a
genuine zero-distance result (which `sysZeroDist` exhibits with both
codes present). -/
theorem claim_C10_invalid_codes_return_zero :
    (∀ (sys : FlightManagementSystem) (s d : String),
      (lookupAirport sys s).isNone ∨ (lookupAirport sys d).isNone →
      findSmallestDistance sys s d = 0) ∧
    (0 : ℚ) ≠ DBL_MAX ∧
    (lookupAirport sysZeroDist "A").isSome ∧ (lookupAirport sysZeroDist "B").isSome ∧
    findSmallestDistance sysZeroDist "A" "B" = 0 := by
  refine ⟨?_, ?_, by decide, by decide, ?_⟩
  · intro sys s d h
    unfold findSmallestDistance
    rw [if_pos h]
  · norm_num [DBL_MAX]
  · have h1 : findBestFlightOptions sysZeroDist.flights "A" "B" =
        [[⟨"A", "B", ["X"]⟩]] := by decide
    have h2 : hopDistance sysZeroDist.flights "A" "B" = 0 := rfl
    rw [findSmallestDistance_valid sysZeroDist "A" "B" (by decide) (by decide), h1]
    simp [pathDistance, h2]
    norm_num [DBL_MAX]

theorem claim_C10_witness : findSmallestDistance sysZeroDist "ZZZ" "B" = 0 :=
  claim_C10_invalid_codes_return_zero.1 sysZeroDist "ZZZ" "B" (Or.inl (by decide))
